import Mathlib

/-!
Shallow embedding of the flexbuf buffer library (src/flexbuf/flexbuf.h).

Machine integers: every C++ `size_t` is modelled as a `Nat`, with the wrapping
of 64-bit unsigned arithmetic made explicit through `% 2 ^ 64` in `add64`,
`sub64` and in the doubling loop of `capacity_for`.  Bytes are `Nat` values
(`0 ≤ b < 256` at the call sites that matter); `char` is signed on the
modelled platform (x86-64 Linux), which matters only for `hex`.

Sharing: the C++ code shares one mutable `internal::BufferData` descriptor
between many views through `shared_ptr<BufferData>`.  The model makes the
heap explicit: a `Store` is a list of descriptors, and a view holds the index
of its descriptor (`dataId`).  Mutation returns an updated store.

Uninitialised memory: `new char[n]` yields unspecified bytes; every operation
that allocates takes a `junk : Nat → Nat` parameter supplying those bytes, so
theorems quantify over them.

Fallible operations (ones that can throw) return `Except Unit α`.
-/

namespace Flexbuf

/-- The size_t modulus: 2^64. -/
def W : Nat := 2 ^ 64

/-- BufferView::npos = static_cast<size_t>(-1). -/
def npos : Nat := W - 1

/-- 64-bit unsigned (size_t) addition. -/
def add64 (a b : Nat) : Nat := (a + b) % W

/-- 64-bit unsigned (size_t) subtraction, for a b < 2^64. -/
def sub64 (a b : Nat) : Nat := (W + a - b) % W

/-- flexbuf::ResizeMode. -/
inductive ResizeMode
  | KeepData
  | IgnoreData
deriving DecidableEq

/-- internal::BufferData: one contiguous allocation.  `data i` is the byte at
physical index `i` of the current allocation; `capacity` is its length. -/
structure BufferData where
  data : Nat → Nat
  capacity : Nat

instance : Inhabited BufferData := ⟨⟨fun _ => 0, 0⟩⟩

/-- The explicit heap of shared descriptors; a view's `dataId` indexes it. -/
abbrev Store := List BufferData

/-- Dereference a descriptor id (the shared_ptr<BufferData>). -/
def descOf (st : Store) (id : Nat) : BufferData := st.getD id default

/-- Replace the descriptor at `id` (in-place mutation of the shared object). -/
def setDesc (st : Store) (id : Nat) (d : BufferData) : Store := st.set id d

/-- internal::BufferData::resize (flexbuf.h:58-67): allocate a fresh block of
`new_capacity` unspecified (`junk`) bytes, copy `min(_capacity, new_capacity)`
old bytes into it when mode is KeepData, and swap it in. -/
def BufferData.resize (d : BufferData) (mode : ResizeMode) (new_capacity : Nat)
    (junk : Nat → Nat) : BufferData :=
  { data := fun i =>
      if mode = ResizeMode.KeepData ∧ i < min d.capacity new_capacity then d.data i
      else junk i
    capacity := new_capacity }

/-- BufferView: (shared descriptor, offset, size).  `Buffer` adds only
mutating members in C++, no state, so it shares this record. -/
structure BufferView where
  dataId : Nat
  offset : Nat
  size : Nat
deriving DecidableEq

/-- Buffer extends BufferView without adding fields. -/
abbrev Buffer := BufferView

/-- BufferView::check_bounds (flexbuf.h:91-96), `true` = it throws:
`auto end = index + size;` (size_t, wraps) then
`end > _size || end > _data->capacity() - _offset` (size_t subtraction,
wraps when the descriptor shrank below the view's offset). -/
def check_bounds (st : Store) (v : BufferView) (index sz : Nat) : Bool :=
  let e := add64 index sz
  decide (e > v.size) || decide (e > sub64 (descOf st v.dataId).capacity v.offset)

/-- BufferView::operator[] (flexbuf.h:247-250): bounds-check (index, 1), then
return the byte at raw_data()[index], i.e. physical index offset + index.
Buffer::operator[] performs the same check before yielding its mutable
reference. -/
def readByte (st : Store) (v : BufferView) (index : Nat) : Except Unit Nat :=
  if check_bounds st v index 1 then .error ()
  else .ok ((descOf st v.dataId).data (v.offset + index))

/-- BufferView::read<T> (flexbuf.h:263-269) for a `T` of `n` bytes:
bounds-check (index, sizeof(T)) then copy sizeof(T) bytes. -/
def readBytes (st : Store) (v : BufferView) (index n : Nat) : Except Unit (List Nat) :=
  if check_bounds st v index n then .error ()
  else .ok ((List.range n).map fun k => (descOf st v.dataId).data (v.offset + index + k))

/-- `memcpy(descriptor base + start, bs, bs.length)`: overwrite the window
[start, start + bs.length) of a descriptor's bytes. -/
def memcpyBytes (d : BufferData) (start : Nat) (bs : List Nat) : BufferData :=
  { d with data := fun i =>
      if start ≤ i ∧ i < start + bs.length then bs.getD (i - start) 0
      else d.data i }

/-- Buffer::write<T> (flexbuf.h:496-500) writing the byte list `bs`:
bounds-check (index, sizeof(T)) then memcpy into raw_data() + index.
Also models `buf[i] = c` for a single byte. -/
def writeBytes (st : Store) (v : Buffer) (index : Nat) (bs : List Nat) : Except Unit Store :=
  if check_bounds st v index bs.length then .error ()
  else .ok (setDesc st v.dataId (memcpyBytes (descOf st v.dataId) (v.offset + index) bs))

/-- BufferView::subview (flexbuf.h:276-281): substitute the npos sentinel by
`_size - index` (size_t subtraction), bounds-check, and return
`BufferView{_data, index, size}` — note the constructor receives `index`
itself as the new offset, not `_offset + index`. -/
def subview (st : Store) (v : BufferView) (index sz : Nat) : Except Unit BufferView :=
  let sz := if sz = npos then sub64 v.size index else sz
  if check_bounds st v index sz then .error ()
  else .ok ⟨v.dataId, index, sz⟩

/-- Buffer::subspan (flexbuf.h:506-511): same body as subview, returning a
mutable Buffer that shares the descriptor. -/
def subspan (st : Store) (b : Buffer) (index sz : Nat) : Except Unit Buffer :=
  let sz := if sz = npos then sub64 b.size index else sz
  if check_bounds st b index sz then .error ()
  else .ok ⟨b.dataId, index, sz⟩

/-- BufferView::data (flexbuf.h:231-234): `check_bounds(0, 0)` then return
raw_data().  The returned "pointer" is modelled as the physical start index
of the view inside its descriptor.  Buffer::data is identical. -/
def dataPtr (st : Store) (v : BufferView) : Except Unit Nat :=
  if check_bounds st v 0 0 then .error ()
  else .ok v.offset

/-- BufferView::operator std::span (flexbuf.h:255-258) and Buffer's two span
conversions: `check_bounds(0, size())` then expose the bytes. -/
def spanBytes (st : Store) (v : BufferView) : Except Unit (List Nat) :=
  if check_bounds st v 0 v.size then .error ()
  else .ok ((List.range v.size).map fun k => (descOf st v.dataId).data (v.offset + k))

/-- BufferView::str (flexbuf.h:295-298): `check_bounds(0, _size)` then the
byte contents as a string (modelled as the byte list). -/
def strBytes (st : Store) (v : BufferView) : Except Unit (List Nat) :=
  if check_bounds st v 0 v.size then .error ()
  else .ok ((List.range v.size).map fun k => (descOf st v.dataId).data (v.offset + k))

/-- Lowercase hexadecimal digit. -/
def hexDigitChar (n : Nat) : Char :=
  if n = 0 then '0' else if n = 1 then '1' else if n = 2 then '2'
  else if n = 3 then '3' else if n = 4 then '4' else if n = 5 then '5'
  else if n = 6 then '6' else if n = 7 then '7' else if n = 8 then '8'
  else if n = 9 then '9' else if n = 10 then 'a' else if n = 11 then 'b'
  else if n = 12 then 'c' else if n = 13 then 'd' else if n = 14 then 'e'
  else 'f'

/-- Minimal-length hexadecimal digit string of `n` (empty for 0); 64 division
steps suffice for any value arising from a 64-bit quantity. -/
def hexDigitsAux : Nat → Nat → List Char
  | 0, _ => []
  | fuel + 1, n => if n = 0 then [] else hexDigitsAux fuel (n / 16) ++ [hexDigitChar (n % 16)]

/-- What `oss << std::hex << v` prints for a nonnegative int `v` ("0" for 0). -/
def hexNat (n : Nat) : String :=
  if n = 0 then "0" else ⟨hexDigitsAux 64 n⟩

/-- What one loop iteration of BufferView::hex (flexbuf.h:308-309) appends for
the stored byte `b` (0 ≤ b < 256): `oss << std::setw(2) <<
static_cast<int>(raw_data()[i])` where `char` is signed on the modelled
platform, so bytes ≥ 128 become negative ints, which `std::hex` prints as
their 32-bit unsigned representation; setw(2)/setfill('0') pad a single
digit on the left with '0'. -/
def hexByteChunk (b : Nat) : String :=
  let printed := if b < 128 then hexNat b else hexNat (2 ^ 32 - 256 + b)
  if printed.length < 2 then "0" ++ printed else printed

/-- BufferView::hex (flexbuf.h:303-311): `check_bounds(0, _size)`, then "0x"
followed by the chunk printed for each byte in buffer order. -/
def hexRender (st : Store) (v : BufferView) : Except Unit String :=
  if check_bounds st v 0 v.size then .error ()
  else .ok ("0x" ++ String.join ((List.range v.size).map fun i =>
    hexByteChunk ((descOf st v.dataId).data (v.offset + i))))

/-- FlexBuffer: a Buffer (offset is 0 except for moved-from objects) plus the
`_initial_capacity` floor; the logical size is the view's `size` while the
physical capacity lives in the shared descriptor. -/
structure FlexBuffer where
  dataId : Nat
  offset : Nat
  size : Nat
  initial_capacity : Nat
deriving DecidableEq

/-- The Buffer view of a FlexBuffer (the inherited BufferView state). -/
def FlexBuffer.toBuffer (f : FlexBuffer) : Buffer := ⟨f.dataId, f.offset, f.size⟩

/-- The doubling loop of FlexBuffer::capacity_for (flexbuf.h:557-559):
`while (size > capacity && capacity != 0) capacity <<= 1;` with the shift
wrapping modulo 2^64.  Any 64-bit value shifted left 64 times is 0, at which
point the loop condition fails, so 64 units of fuel reproduce the loop
exactly for any starting capacity < 2^64. -/
def capacity_forLoop : Nat → Nat → Nat → Nat
  | 0, _, cap => cap
  | fuel + 1, sz, cap =>
    if sz > cap ∧ cap ≠ 0 then capacity_forLoop fuel sz (cap * 2 % W) else cap

/-- FlexBuffer::capacity_for (flexbuf.h:555-565): start from max(1,
min_capacity), double while the target size exceeds it, and if the doubling
wrapped to 0 ("capacity can no longer double on architecture") use the size
itself. -/
def capacity_for (sz min_capacity : Nat) : Nat :=
  let cap := max 1 min_capacity
  let cap := capacity_forLoop 64 sz cap
  if cap = 0 then sz else cap

/-- The capacity FlexBuffer::resize computes (flexbuf.h:658):
`size > _size ? capacity_for(size, _data->capacity()) :
capacity_for(size, _initial_capacity)`. -/
def flexNewCapacity (st : Store) (f : FlexBuffer) (sz : Nat) : Nat :=
  if sz > f.size then capacity_for sz (descOf st f.dataId).capacity
  else capacity_for sz f.initial_capacity

/-- FlexBuffer::resize (flexbuf.h:657-663): pick the floor (current capacity
when growing, initial_capacity when shrinking), reallocate the shared
descriptor only when the computed capacity differs from the current one, and
set the logical size unconditionally. -/
def flexResize (st : Store) (f : FlexBuffer) (sz : Nat) (mode : ResizeMode)
    (junk : Nat → Nat) : Store × FlexBuffer :=
  let st' := if flexNewCapacity st f sz ≠ (descOf st f.dataId).capacity
    then setDesc st f.dataId ((descOf st f.dataId).resize mode (flexNewCapacity st f sz) junk)
    else st
  (st', { f with size := sz })

/-- FlexBuffer::reserve (flexbuf.h:668-672): grow by `sz` (size_t addition)
and hand back `Buffer{_data, offset, size}` over the newly added region —
the same descriptor instance, with the old size as the absolute offset. -/
def flexReserve (st : Store) (f : FlexBuffer) (sz : Nat) (junk : Nat → Nat) :
    Store × FlexBuffer × Buffer :=
  let off := f.size
  let p := flexResize st f (add64 f.size sz) ResizeMode.KeepData junk
  (p.1, p.2, ⟨f.dataId, off, sz⟩)

/-- FlexBuffer::append (flexbuf.h:699-703), the common body of the
operator<< overloads: reserve, then memcpy the bytes into the returned
region (dest.data() is a zero-length-checked pointer that never throws). -/
def flexAppend (st : Store) (f : FlexBuffer) (bs : List Nat) (junk : Nat → Nat) :
    Store × FlexBuffer :=
  let p := flexReserve st f bs.length junk
  let dest := p.2.2
  let st' := setDesc p.1 dest.dataId
    (memcpyBytes (descOf p.1 dest.dataId) dest.offset bs)
  (st', p.2.1)

/-- FlexBuffer::FlexBuffer(initial_capacity) (flexbuf.h:552-553, 572-573):
allocate a fresh descriptor of capacity initial_capacity (uninitialised
bytes), size 0, offset 0. -/
def flexNew (st : Store) (initial_capacity : Nat) (junk : Nat → Nat) :
    Store × FlexBuffer :=
  (st ++ [⟨junk, initial_capacity⟩], ⟨st.length, 0, 0, initial_capacity⟩)

/-- Buffer::Buffer(const Buffer&) (flexbuf.h:427-429): fresh exclusive
descriptor of capacity rhs.size(), offset 0, size rhs.size(), and a memcpy of
rhs.size() bytes from rhs.raw_data(). -/
def bufferCopyCtor (st : Store) (rhs : Buffer) (junk : Nat → Nat) : Store × Buffer :=
  let src := descOf st rhs.dataId
  (st ++ [⟨fun i => if i < rhs.size then src.data (rhs.offset + i) else junk i, rhs.size⟩],
   ⟨st.length, 0, rhs.size⟩)

/-- Buffer::operator=(const Buffer&) (flexbuf.h:434-439): fresh descriptor of
capacity rhs.size(), `_size = rhs._size`, memcpy into the target's
raw_data(), whose `_offset` is left unchanged. -/
def bufferCopyAssign (st : Store) (target rhs : Buffer) (junk : Nat → Nat) :
    Store × Buffer :=
  let src := descOf st rhs.dataId
  (st ++ [⟨fun i =>
      if target.offset ≤ i ∧ i < target.offset + rhs.size then
        src.data (rhs.offset + (i - target.offset))
      else junk i, rhs.size⟩],
   ⟨st.length, target.offset, rhs.size⟩)

/-- FlexBuffer::FlexBuffer(const FlexBuffer&) (flexbuf.h:578-580): delegates
to FlexBuffer{rhs._initial_capacity, rhs.capacity()}, which allocates a fresh
descriptor of capacity rhs.capacity() and sets `_offset = 0` and `_size = 0`;
then memcpys rhs.size() bytes.  `_size` is never set to rhs._size. -/
def flexCopyCtor (st : Store) (rhs : FlexBuffer) (junk : Nat → Nat) :
    Store × FlexBuffer :=
  let src := descOf st rhs.dataId
  (st ++ [⟨fun i => if i < rhs.size then src.data (rhs.offset + i) else junk i,
          src.capacity⟩],
   ⟨st.length, 0, 0, rhs.initial_capacity⟩)

/-- FlexBuffer::operator=(const FlexBuffer&) (flexbuf.h:585-591): fresh
descriptor of capacity rhs.capacity(), `_size = rhs._size`,
`_initial_capacity` copied, memcpy through the target's raw_data() (the
target's `_offset` is left unchanged). -/
def flexCopyAssign (st : Store) (target rhs : FlexBuffer) (junk : Nat → Nat) :
    Store × FlexBuffer :=
  let src := descOf st rhs.dataId
  (st ++ [⟨fun i =>
      if target.offset ≤ i ∧ i < target.offset + rhs.size then
        src.data (rhs.offset + (i - target.offset))
      else junk i, src.capacity⟩],
   ⟨st.length, target.offset, rhs.size, rhs.initial_capacity⟩)

/-- BufferWriter::write (flexbuf.h:860-866) and operator<< (flexbuf.h:850-857):
`if (_position + size > _buf.size()) throw` — the comparison is on the
size_t sum — otherwise memcpy `bs` to `_buf.data() + _position` and advance
`_position += size`.  The throw happens before any byte is copied, so the
error branch produces no new store.  Returns (new store, new position). -/
def writerWrite (st : Store) (b : Buffer) (pos : Nat) (bs : List Nat) :
    Except Unit (Store × Nat) :=
  if add64 pos bs.length > b.size then .error ()
  else .ok (setDesc st b.dataId (memcpyBytes (descOf st b.dataId) (b.offset + pos) bs),
            add64 pos bs.length)

/-- One user-visible mutation of a FlexBuffer for the capacity law: a resize
call or an append (operator<< routes every append through reserve). -/
inductive FlexOp
  | resizeOp (n : Nat) (mode : ResizeMode)
  | appendOp (bs : List Nat)

/-- Run one FlexOp. -/
def applyOp (junk : Nat → Nat) (p : Store × FlexBuffer) (op : FlexOp) :
    Store × FlexBuffer :=
  match op with
  | .resizeOp n mode => flexResize p.1 p.2 n mode junk
  | .appendOp bs => flexAppend p.1 p.2 bs junk

/-- Run a sequence of FlexOps. -/
def applyOps (junk : Nat → Nat) (p : Store × FlexBuffer) (ops : List FlexOp) :
    Store × FlexBuffer :=
  ops.foldl (applyOp junk) p

/-- Every operation of the trace keeps the logical size at most 2^63 (so the
doubling loop never wraps). -/
def smallTrace (junk : Nat → Nat) (p : Store × FlexBuffer) : List FlexOp → Bool
  | [] => true
  | op :: rest =>
    (match op with
     | .resizeOp n _ => decide (n ≤ 2 ^ 63)
     | .appendOp bs => decide (p.2.size + bs.length ≤ 2 ^ 63))
    && smallTrace junk (applyOp junk p op) rest

/-! Concrete instances used by witnesses and counterexamples. -/

/-- A one-descriptor store: 4 zeroed bytes. -/
def exStore1 : Store := [⟨fun _ => 0, 4⟩]

/-- A FlexBuffer of size 2 over descriptor 0 (capacity 4, floor 4). -/
def exFlex1 : FlexBuffer := ⟨0, 0, 2, 4⟩

/-- A sub-buffer over bytes [0, 2) of descriptor 0, taken before a resize. -/
def exSub1 : Buffer := ⟨0, 0, 2⟩

/-- A one-descriptor store: a single zero byte. -/
def exStore2 : Store := [⟨fun _ => 0, 1⟩]

/-- A view of the single byte of exStore2. -/
def exView2 : BufferView := ⟨0, 0, 1⟩

/-- A one-descriptor store with bytes [1, 7, 10, 33]. -/
def exStore4 : Store := [⟨fun i => [1, 7, 10, 33].getD i 0, 4⟩]

/-- The full view of exStore4. -/
def exView4 : BufferView := ⟨0, 0, 4⟩

/-- A one-descriptor store with bytes "abc" = [97, 98, 99]. -/
def exStore5 : Store := [⟨fun i => [97, 98, 99].getD i 0, 4⟩]

/-- A FlexBuffer of size 3 ("abc") over exStore5. -/
def exFlex5 : FlexBuffer := ⟨0, 0, 3, 4⟩

/-- A one-descriptor store: 12 zeroed bytes. -/
def exStore6 : Store := [⟨fun _ => 0, 12⟩]

/-- A 12-byte Buffer over exStore6. -/
def exBuf6 : Buffer := ⟨0, 0, 12⟩

/-- A one-descriptor store with bytes [104, 105, 106, 107]. -/
def exStore7 : Store := [⟨fun i => [104, 105, 106, 107].getD i 0, 4⟩]

/-- A FlexBuffer of size 4 over exStore7 (capacity 4, floor 4). -/
def exFlex7 : FlexBuffer := ⟨0, 0, 4, 4⟩

/-- A one-descriptor store with bytes [1, 7, 10, 33]. -/
def exStore8 : Store := [⟨fun i => [1, 7, 10, 33].getD i 0, 4⟩]

/-- The full view of exStore8. -/
def exView8 : BufferView := ⟨0, 0, 4⟩

/-- A one-descriptor store holding a single 0xFF byte. -/
def exStoreHi8 : Store := [⟨fun _ => 255, 1⟩]

/-- The one-byte view of exStoreHi8. -/
def exViewHi8 : BufferView := ⟨0, 0, 1⟩

/-- A store whose only descriptor has shrunk to capacity 0. -/
def exStore9 : Store := [⟨fun _ => 0, 0⟩]

/-- An empty view recorded at offset 5 — past the descriptor's capacity. -/
def exView9 : BufferView := ⟨0, 5, 0⟩

/-- A one-descriptor store: 4 zeroed bytes. -/
def exStore10 : Store := [⟨fun _ => 0, 4⟩]

/-- A view of 1 byte at offset 0 of exStore10. -/
def exView10 : BufferView := ⟨0, 0, 1⟩

/-! Helper lemmas about the store. -/

theorem length_setDesc (st : Store) (id : Nat) (d : BufferData) :
    (setDesc st id d).length = st.length :=
  List.length_set st id d

theorem descOf_setDesc_self {st : Store} {id : Nat} (d : BufferData)
    (h : id < st.length) : descOf (setDesc st id d) id = d := by
  induction st generalizing id with
  | nil => simp at h
  | cons a t ih =>
    cases id with
    | zero => rfl
    | succ k =>
      show descOf (setDesc t k d) k = d
      exact ih (Nat.lt_of_succ_lt_succ h)

theorem descOf_setDesc_of_ne {st : Store} {id id' : Nat} (d : BufferData)
    (h : id' ≠ id) : descOf (setDesc st id d) id' = descOf st id' := by
  induction st generalizing id id' with
  | nil => rfl
  | cons a t ih =>
    cases id with
    | zero =>
      cases id' with
      | zero => exact absurd rfl h
      | succ k => rfl
    | succ m =>
      cases id' with
      | zero => rfl
      | succ k =>
        show descOf (setDesc t m d) k = descOf t k
        exact ih fun hk => h (by rw [hk])

/-- The bounds check fails exactly when the wrapped end exceeds the view's
length or the wrapped capacity-minus-offset. -/
theorem check_bounds_iff (st : Store) (v : BufferView) (index sz : Nat) :
    check_bounds st v index sz = true ↔
      (add64 index sz > v.size ∨
        add64 index sz > sub64 (descOf st v.dataId).capacity v.offset) := by
  simp [check_bounds]

theorem ite_error_isOk_false {α : Type} {c : Bool} {e : α} :
    ((if c = true then Except.error () else Except.ok e) : Except Unit α).isOk = false
      ↔ c = true := by
  cases c <;> simp [Except.isOk, Except.toBool]

/-- C2 (amended): every checked access — operator[], read<T>, write<T>,
subview, subspan, the span conversions, str and hex — raises the out-of-range
error if and only if `index + size` computed in wrapping (mod 2^64) size_t
arithmetic exceeds the view's own length or exceeds
`descriptor.capacity() - offset` computed in the same wrapping arithmetic
(for subview/subspan, with the npos sentinel first replaced by the defaulted
size `view.size() - index`); otherwise the access succeeds. -/
theorem C2_bounds_check_wrapping (st : Store) (v : BufferView) (i s : Nat)
    (bs : List Nat) :
    (((readByte st v i).isOk = false) ↔
      (add64 i 1 > v.size ∨ add64 i 1 > sub64 (descOf st v.dataId).capacity v.offset))
  ∧ (((readBytes st v i s).isOk = false) ↔
      (add64 i s > v.size ∨ add64 i s > sub64 (descOf st v.dataId).capacity v.offset))
  ∧ (((writeBytes st v i bs).isOk = false) ↔
      (add64 i bs.length > v.size ∨
        add64 i bs.length > sub64 (descOf st v.dataId).capacity v.offset))
  ∧ (((subview st v i s).isOk = false) ↔
      (add64 i (if s = npos then sub64 v.size i else s) > v.size ∨
        add64 i (if s = npos then sub64 v.size i else s) >
          sub64 (descOf st v.dataId).capacity v.offset))
  ∧ (((subspan st v i s).isOk = false) ↔
      (add64 i (if s = npos then sub64 v.size i else s) > v.size ∨
        add64 i (if s = npos then sub64 v.size i else s) >
          sub64 (descOf st v.dataId).capacity v.offset))
  ∧ (((spanBytes st v).isOk = false) ↔
      (add64 0 v.size > v.size ∨
        add64 0 v.size > sub64 (descOf st v.dataId).capacity v.offset))
  ∧ (((strBytes st v).isOk = false) ↔
      (add64 0 v.size > v.size ∨
        add64 0 v.size > sub64 (descOf st v.dataId).capacity v.offset))
  ∧ (((hexRender st v).isOk = false) ↔
      (add64 0 v.size > v.size ∨
        add64 0 v.size > sub64 (descOf st v.dataId).capacity v.offset)) := by
  refine ⟨?_, ?_, ?_, ?_, ?_, ?_, ?_, ?_⟩ <;>
    simp only [readByte, readBytes, writeBytes, subview, subspan, spanBytes,
      strBytes, hexRender] <;>
    rw [ite_error_isOk_false, check_bounds_iff]

/-- C2 counterexample: with exact (non-wrapping) arithmetic the claim is
false.  On a view of length 1 over a descriptor of capacity 1,
`operator[]` at index 2^64 - 1 has exact `index + size = 2^64 > 1`, so the
claim as stated demands the out-of-range error; the code computes
`end = 0` in size_t arithmetic and the access succeeds. -/
theorem C2_exact_arithmetic_counterexample :
    (readByte exStore2 exView2 (W - 1)).isOk = true ∧ W - 1 + 1 > exView2.size := by
  constructor
  · rfl
  · decide

/-- C4: on a parent view that itself has a nonzero offset the claim fails:
`subview`/`subspan` pass `index` to the constructor as the new absolute
offset instead of `_offset + index` (flexbuf.h:280, 510).  Over bytes
[1, 7, 10, 33], taking subview(1, 2) and then its subview(1, 1) yields the
byte 7 (descriptor index 1), while the parent's byte at index 1 — required
by the claim and by the repository's own test "BufferView.subview() of
subview" (tests.cc:152-164) — is 10. -/
theorem C4_nested_subview_offset_bug :
    ((subview exStore4 exView4 1 2).bind fun s1 =>
      (subview exStore4 s1 1 1).bind fun s2 => readByte exStore4 s2 0) = .ok 7
  ∧ ((subspan exStore4 exView4 1 2).bind fun s1 =>
      (subspan exStore4 s1 1 1).bind fun s2 => readByte exStore4 s2 0) = .ok 7
  ∧ (7 : Nat) ≠ 10 := by
  refine ⟨rfl, rfl, by decide⟩

/-- C5: the FlexBuffer copy constructor is not the deep copy the claim
describes: it delegates to the private (initial_capacity, allocate_size)
constructor, which sets `_size = 0`, and never assigns `rhs._size`
(flexbuf.h:578-580).  Copying a FlexBuffer of logical size 3 yields a buffer
whose bytes were memcpy'd (byte 0 is 97 = 'a') but whose logical size is 0,
not 3. -/
theorem C5_flex_copy_ctor_size_zero :
    (flexCopyCtor exStore5 exFlex5 (fun _ => 0)).2.size = 0
  ∧ exFlex5.size = 3
  ∧ (descOf (flexCopyCtor exStore5 exFlex5 (fun _ => 0)).1
      (flexCopyCtor exStore5 exFlex5 (fun _ => 0)).2.dataId).data 0 = 97
  ∧ (0 : Nat) ≠ 3 := by
  refine ⟨rfl, rfl, rfl, by decide⟩

/-- C8: hex() streams `static_cast<int>(raw_data()[i])`; `char` is signed on
the modelled platform, so a byte ≥ 128 is sign-extended and printed as eight
hexadecimal digits of its 32-bit unsigned representation instead of two
zero-padded digits: a one-byte view holding 0xFF renders as "0xffffffff",
not "0xff".  For bytes < 128 the rendering is as specified: [1, 7, 10, 33]
renders as "0x01070a21". -/
theorem C8_hex_signed_char_bug :
    hexRender exStoreHi8 exViewHi8 = .ok "0xffffffff"
  ∧ hexRender exStore8 exView8 = .ok "0x01070a21"
  ∧ "0xffffffff" ≠ "0xff" := by
  refine ⟨rfl, rfl, by decide⟩

/-- C9: data() calls `check_bounds(0, 0)`, but a zero-length request can
never fail it: `end = 0` and the unsigned comparisons `0 > _size` and
`0 > capacity - offset` are always false, so data() never raises — on every
view, in particular on an entirely empty and invalid one (offset 5, size 0,
over a descriptor shrunk to capacity 0) it returns the pointer, contrary to
the claim. -/
theorem C9_data_zero_length_check_never_fails :
    (∀ st v, (dataPtr st v).isOk = true) ∧ dataPtr exStore9 exView9 = .ok 5 := by
  constructor
  · intro st v
    have h : check_bounds st v 0 0 = false := by
      simp [check_bounds, add64]
    simp [dataPtr, h, Except.isOk, Except.toBool]
  · rfl

/-- C10: for a view whose descriptor capacity minus offset is at least its
size, subview(index) with the size omitted and index strictly greater than
the view's size raises no error: the defaulted size `_size - index` wraps to
2^64 - (index - size), the bounds check computes `index + size ≡ _size`
(mod 2^64) and passes, and the returned view reports size
2^64 - (index - v.size()). -/
theorem C10_subview_npos_wrap (st : Store) (v : BufferView) (index : Nat)
    (hIdxW : index < W) (hgt : v.size < index)
    (hoffle : v.offset ≤ (descOf st v.dataId).capacity)
    (hcapW : (descOf st v.dataId).capacity < W)
    (hfit : v.size ≤ (descOf st v.dataId).capacity - v.offset) :
    subview st v index npos = .ok ⟨v.dataId, index, W - (index - v.size)⟩ := by
  have hWeq : W = 18446744073709551616 := rfl
  have hszW : v.size < W := lt_of_le_of_lt hfit (lt_of_le_of_lt (Nat.sub_le _ _) hcapW)
  have hsz : sub64 v.size index = W - (index - v.size) := by
    unfold sub64
    rw [hWeq] at hIdxW hszW ⊢
    omega
  have hchk : check_bounds st v index (sub64 v.size index) = false := by
    rw [hsz]
    simp only [check_bounds, add64, sub64, Bool.or_eq_false_iff,
      decide_eq_false_iff_not, not_lt]
    rw [hWeq] at hIdxW hszW hcapW ⊢
    omega
  simp only [subview, eq_self_iff_true, if_true]
  rw [hsz] at hchk
  simp [hchk, hsz]

theorem memcpyBytes_capacity (d : BufferData) (start : Nat) (bs : List Nat) :
    (memcpyBytes d start bs).capacity = d.capacity := rfl

theorem memcpyBytes_data_in (d : BufferData) (start : Nat) (bs : List Nat)
    {k : Nat} (hk : k < bs.length) :
    (memcpyBytes d start bs).data (start + k) = bs.getD k 0 := by
  show (if start ≤ start + k ∧ start + k < start + bs.length
        then bs.getD (start + k - start) 0 else d.data (start + k)) = bs.getD k 0
  rw [if_pos ⟨Nat.le_add_right _ _, by omega⟩]
  congr 1
  omega

theorem memcpyBytes_data_out (d : BufferData) (start : Nat) (bs : List Nat)
    {i : Nat} (hi : i < start ∨ start + bs.length ≤ i) :
    (memcpyBytes d start bs).data i = d.data i := by
  show (if start ≤ i ∧ i < start + bs.length then bs.getD (i - start) 0 else d.data i)
      = d.data i
  rw [if_neg (by omega)]

theorem capacity_forLoop_zero_or_ge (s : Nat) :
    ∀ fuel cap, cap < W → cap * 2 ^ fuel % W = 0 →
      capacity_forLoop fuel s cap = 0 ∨ s ≤ capacity_forLoop fuel s cap := by
  intro fuel
  induction fuel with
  | zero =>
    intro cap hlt hmod
    left
    simpa [Nat.mod_eq_of_lt hlt] using hmod
  | succ fuel ih =>
    intro cap hlt hmod
    have hstep : capacity_forLoop (fuel + 1) s cap =
        if s > cap ∧ cap ≠ 0 then capacity_forLoop fuel s (cap * 2 % W) else cap := rfl
    rw [hstep]
    by_cases hcond : s > cap ∧ cap ≠ 0
    · rw [if_pos hcond]
      apply ih
      · exact Nat.mod_lt _ (by decide)
      · have h2 : cap * 2 * 2 ^ fuel = cap * 2 ^ (fuel + 1) := by ring
        rw [Nat.mod_mul_mod, h2, hmod]
    · rw [if_neg hcond]
      rcases Nat.eq_zero_or_pos cap with h0 | h0
      · exact Or.inl h0
      · right
        by_contra hlt'
        exact hcond ⟨by omega, by omega⟩

/-- capacity_for never returns less than the requested size (for any 64-bit
floor): the loop either reaches a capacity ≥ size or wraps to 0, in which
case the size itself is used. -/
theorem capacity_for_ge (s m : Nat) (hm : m < W) : s ≤ capacity_for s m := by
  unfold capacity_for
  have h0 : max 1 m < W := max_lt (by decide) hm
  have h1 : max 1 m * 2 ^ 64 % W = 0 := Nat.mul_mod_left _ _
  rcases capacity_forLoop_zero_or_ge s 64 (max 1 m) h0 h1 with h | h
  · simp [h]
  · by_cases hz : capacity_forLoop 64 s (max 1 m) = 0
    · simp [hz]
    · simpa [hz] using h

/-- C10 witness: a 1-byte view over a capacity-4 descriptor; subview(5) with
the size omitted succeeds and reports size 2^64 - 4. -/
theorem C10_subview_npos_wrap_witness :
    subview exStore10 exView10 5 npos = .ok ⟨0, 5, W - 4⟩ :=
  C10_subview_npos_wrap exStore10 exView10 5 (by decide) (by decide) (by decide)
    (by decide) (by decide)

/-- C6 counterexample: the claim's iff is false under the exact reading of
`w.position() + s`.  The position setter is unchecked, so position 2^64 - 1
on a 12-byte buffer is reachable; a 2-byte write there has exact
position + s = 2^64 + 1 > 12, so the claim demands the Overflow error, but
the code's size_t comparison `_position + size > _buf.size()` wraps to
1 ≤ 12 and the write succeeds. -/
theorem C6_writer_exact_overflow_counterexample :
    ((writerWrite exStore6 exBuf6 (W - 1) [104, 105]).isOk = true)
  ∧ W - 1 + 2 > exBuf6.size := by
  constructor
  · rfl
  · decide

/-- C6 (amended): a Writer's write of the byte list `bs` (the common body of
BufferWriter::write and its operator<< overloads) fails with the Overflow
error if and only if position + bs.length, computed in wrapping (mod 2^64)
size_t arithmetic, exceeds the buffer's logical size at call time (the
throw precedes the memcpy, so a failing write commits nothing and the
position — hence remaining() — is unchanged); on success the bytes land at
the old position, the position advances to the wrapped sum, every other
byte of every descriptor is untouched, and neither the buffer's logical
size (a field the Writer never assigns) nor the descriptor's capacity
changes. -/
theorem C6_writer_write_contract (st : Store) (b : Buffer) (pos : Nat)
    (bs : List Nat) (hvalid : b.dataId < st.length) :
    (((writerWrite st b pos bs).isOk = false) ↔ add64 pos bs.length > b.size)
  ∧ (∀ st' pos', writerWrite st b pos bs = .ok (st', pos') →
      pos' = add64 pos bs.length
      ∧ (descOf st' b.dataId).capacity = (descOf st b.dataId).capacity
      ∧ (∀ k, k < bs.length →
          (descOf st' b.dataId).data (b.offset + pos + k) = bs.getD k 0)
      ∧ (∀ i, i < b.offset + pos ∨ b.offset + pos + bs.length ≤ i →
          (descOf st' b.dataId).data i = (descOf st b.dataId).data i)
      ∧ (∀ id, id ≠ b.dataId → descOf st' id = descOf st id)) := by
  unfold writerWrite
  by_cases h : add64 pos bs.length > b.size
  · rw [if_pos h]
    refine ⟨by simp [Except.isOk, Except.toBool, h], ?_⟩
    intro st' pos' heq
    exact absurd heq (by simp)
  · rw [if_neg h]
    refine ⟨by simp [Except.isOk, Except.toBool, h], ?_⟩
    intro st' pos' heq
    simp only [Except.ok.injEq, Prod.mk.injEq] at heq
    obtain ⟨h1, h2⟩ := heq
    subst h1
    subst h2
    refine ⟨rfl, ?_, ?_, ?_, ?_⟩
    · rw [descOf_setDesc_self _ hvalid, memcpyBytes_capacity]
    · intro k hk
      rw [descOf_setDesc_self _ hvalid, memcpyBytes_data_in _ _ _ hk]
    · intro i hi
      rw [descOf_setDesc_self _ hvalid, memcpyBytes_data_out _ _ _ hi]
    · intro id hne
      rw [descOf_setDesc_of_ne _ hne]

/-- C6 witness: writing 2 bytes at position 5 of a 12-byte buffer succeeds
(5 + 2 ≤ 12, no overflow), and writing 2 bytes at position 11 fails
(11 + 2 > 12). -/
theorem C6_writer_write_contract_witness :
    ((writerWrite exStore6 exBuf6 5 [104, 105]).isOk = true)
  ∧ ((writerWrite exStore6 exBuf6 11 [104, 105]).isOk = false) := by
  have hok := (C6_writer_write_contract exStore6 exBuf6 5 [104, 105]
    (by decide)).1
  have hov := (C6_writer_write_contract exStore6 exBuf6 11 [104, 105]
    (by decide)).1
  constructor
  · cases hres : (writerWrite exStore6 exBuf6 5 [104, 105]).isOk with
    | true => rfl
    | false => exact absurd (hok.mp hres) (by decide)
  · exact hov.mpr (by decide)

/-- C7: resize(n, KeepData) on a well-formed FlexBuffer (size ≤ capacity,
offset 0) sets the logical size to exactly n, leaves the bytes at positions
[0, min(old, n)) unchanged (the descriptor preserves min(oldCapacity,
newCapacity) bytes, which covers them), and leaves the store untouched — no
reallocation — whenever the newly computed capacity (capacity_for with the
current capacity as floor when growing, initial_capacity when shrinking)
equals the current capacity. -/
theorem C7_resize_keepdata_contract (st : Store) (f : FlexBuffer) (n : Nat)
    (junk : Nat → Nat) (hvalid : f.dataId < st.length) (_hoff : f.offset = 0)
    (hsz : f.size ≤ (descOf st f.dataId).capacity)
    (hcapW : (descOf st f.dataId).capacity < W) (hinitW : f.initial_capacity < W) :
    (flexResize st f n ResizeMode.KeepData junk).2.size = n
  ∧ (∀ i, i < min f.size n →
      (descOf (flexResize st f n ResizeMode.KeepData junk).1 f.dataId).data i =
        (descOf st f.dataId).data i)
  ∧ (flexNewCapacity st f n = (descOf st f.dataId).capacity →
      (flexResize st f n ResizeMode.KeepData junk).1 = st) := by
  have hnew_ge : n ≤ flexNewCapacity st f n := by
    unfold flexNewCapacity
    split
    · exact capacity_for_ge n _ hcapW
    · exact capacity_for_ge n _ hinitW
  refine ⟨rfl, ?_, ?_⟩
  · intro i hi
    show (descOf (if flexNewCapacity st f n ≠ (descOf st f.dataId).capacity
        then setDesc st f.dataId ((descOf st f.dataId).resize ResizeMode.KeepData
          (flexNewCapacity st f n) junk)
        else st) f.dataId).data i = _
    by_cases hne : flexNewCapacity st f n = (descOf st f.dataId).capacity
    · rw [if_neg (not_ne_iff.mpr hne)]
    · rw [if_pos hne, descOf_setDesc_self _ hvalid]
      show (if ResizeMode.KeepData = ResizeMode.KeepData ∧
            i < min (descOf st f.dataId).capacity (flexNewCapacity st f n)
            then (descOf st f.dataId).data i else junk i) = _
      rw [if_pos ⟨rfl, by omega⟩]
  · intro heq
    show (if flexNewCapacity st f n ≠ (descOf st f.dataId).capacity
        then setDesc st f.dataId ((descOf st f.dataId).resize ResizeMode.KeepData
          (flexNewCapacity st f n) junk)
        else st) = st
    rw [if_neg (not_ne_iff.mpr heq)]

/-- C7 witness: shrinking a size-4, capacity-4, floor-4 FlexBuffer to size 2
computes capacity_for 2 4 = 4 = current capacity, so no reallocation
happens, the size becomes 2, and byte 1 still reads 105. -/
theorem C7_resize_keepdata_witness :
    (flexResize exStore7 exFlex7 2 ResizeMode.KeepData (fun _ => 0)).2.size = 2
  ∧ (descOf (flexResize exStore7 exFlex7 2 ResizeMode.KeepData (fun _ => 0)).1 0).data 1
      = 105
  ∧ (flexResize exStore7 exFlex7 2 ResizeMode.KeepData (fun _ => 0)).1 = exStore7 := by
  have h := C7_resize_keepdata_contract exStore7 exFlex7 2 (fun _ => 0)
    (by decide) rfl (by decide) (by decide) (by decide)
  exact ⟨h.1, (h.2.1 1 (by decide)).trans rfl, h.2.2 (by decide)⟩

/-- C1: a sub-buffer or view `s` sliced from a Growable Buffer `g` before a
resize shares `g`'s descriptor instance (same dataId); after resizing `g` to
size n — with any ResizeMode — if `s`'s byte range still lies within the
post-resize capacity, then writing a byte through `g` at an index j inside
`s`'s range and reading `s` at the corresponding index j - s.offset yields
exactly that byte: both operations dereference the same descriptor. -/
theorem C1_shared_descriptor_visibility (st : Store) (f : FlexBuffer) (s : Buffer)
    (n j byte : Nat) (mode : ResizeMode) (junk : Nat → Nat)
    (hvalid : f.dataId < st.length)
    (hid : s.dataId = f.dataId) (hoff : f.offset = 0) (hjn : j < n)
    (hcapW : (descOf (flexResize st f n mode junk).1 f.dataId).capacity < W)
    (hrange : s.offset + s.size ≤ (descOf (flexResize st f n mode junk).1 f.dataId).capacity)
    (hjlo : s.offset ≤ j) (hjhi : j < s.offset + s.size) :
    ((writeBytes (flexResize st f n mode junk).1
        (flexResize st f n mode junk).2.toBuffer j [byte]).bind
      fun st2 => readByte st2 s (j - s.offset)) = .ok byte := by
  have hWeq : W = 18446744073709551616 := rfl
  have hlen : (flexResize st f n mode junk).1.length = st.length := by
    show (if flexNewCapacity st f n ≠ (descOf st f.dataId).capacity
        then setDesc st f.dataId ((descOf st f.dataId).resize mode (flexNewCapacity st f n) junk)
        else st).length = st.length
    split
    · exact length_setDesc st f.dataId _
    · rfl
  have hfb_id : (flexResize st f n mode junk).2.toBuffer.dataId = f.dataId := rfl
  have hfb_off : (flexResize st f n mode junk).2.toBuffer.offset = f.offset := rfl
  have hfb_sz : (flexResize st f n mode junk).2.toBuffer.size = n := rfl
  have hjcap : j + 1 ≤ (descOf (flexResize st f n mode junk).1 f.dataId).capacity := by
    omega
  have hchk : check_bounds (flexResize st f n mode junk).1
      (flexResize st f n mode junk).2.toBuffer j 1 = false := by
    simp only [check_bounds, add64, sub64, Bool.or_eq_false_iff,
      decide_eq_false_iff_not, not_lt, hfb_id, hfb_off, hfb_sz, hoff]
    rw [hWeq] at hcapW ⊢
    omega
  have hchk1 : check_bounds (flexResize st f n mode junk).1
      (flexResize st f n mode junk).2.toBuffer j [byte].length = false := hchk
  have hwrite : writeBytes (flexResize st f n mode junk).1
      (flexResize st f n mode junk).2.toBuffer j [byte] =
      .ok (setDesc (flexResize st f n mode junk).1 f.dataId
        (memcpyBytes (descOf (flexResize st f n mode junk).1 f.dataId) (0 + j) [byte])) := by
    unfold writeBytes
    rw [hchk1, if_neg Bool.false_ne_true, hfb_id, hfb_off, hoff]
  rw [hwrite]
  show readByte _ s (j - s.offset) = _
  have hvalid' : f.dataId < (flexResize st f n mode junk).1.length := by
    rw [hlen]; exact hvalid
  have hdesc : descOf (setDesc (flexResize st f n mode junk).1 f.dataId
      (memcpyBytes (descOf (flexResize st f n mode junk).1 f.dataId) (0 + j) [byte]))
      s.dataId =
      memcpyBytes (descOf (flexResize st f n mode junk).1 f.dataId) (0 + j) [byte] := by
    rw [hid]
    exact descOf_setDesc_self _ hvalid'
  have hchk2 : check_bounds (setDesc (flexResize st f n mode junk).1 f.dataId
      (memcpyBytes (descOf (flexResize st f n mode junk).1 f.dataId) (0 + j) [byte]))
      s (j - s.offset) 1 = false := by
    simp only [check_bounds, add64, sub64, Bool.or_eq_false_iff,
      decide_eq_false_iff_not, not_lt, hdesc, memcpyBytes_capacity]
    rw [hWeq] at hcapW ⊢
    omega
  unfold readByte
  rw [hchk2, if_neg Bool.false_ne_true, hdesc]
  have hidx : s.offset + (j - s.offset) = (0 + j) + 0 := by omega
  rw [hidx, memcpyBytes_data_in _ _ _ (by simp : (0 : Nat) < [byte].length)]
  rfl

/-- C1 witness: a size-2 sub-buffer of a FlexBuffer (capacity 4) taken before
resizing the FlexBuffer to size 3 (capacity stays 4); writing byte 77 at
index 1 through the resized FlexBuffer is observed reading the sub-buffer at
index 1. -/
theorem C1_shared_descriptor_visibility_witness :
    ((writeBytes (flexResize exStore1 exFlex1 3 ResizeMode.KeepData (fun _ => 0)).1
        (flexResize exStore1 exFlex1 3 ResizeMode.KeepData (fun _ => 0)).2.toBuffer 1 [77]).bind
      fun st2 => readByte st2 exSub1 (1 - exSub1.offset)) = .ok 77 :=
  C1_shared_descriptor_visibility exStore1 exFlex1 exSub1 3 1 77 ResizeMode.KeepData
    (fun _ => 0) (by decide) rfl rfl (by decide) (by decide) (by decide)
    (by decide) (by decide)

/-- The doubling loop started at a power of two 2^i with a target
size ≤ 2^63 never wraps and stops at 2^(max i (clog 2 size)), the smallest
power of two that is ≥ 2^i and ≥ size. -/
theorem capacity_forLoop_pow2 (s : Nat) (hs : s ≤ 2 ^ 63) :
    ∀ fuel i, i ≤ 63 → s ≤ 2 ^ i * 2 ^ fuel →
      capacity_forLoop fuel s (2 ^ i) = 2 ^ max i (Nat.clog 2 s) := by
  intro fuel
  induction fuel with
  | zero =>
    intro i hi hle
    have hclog : Nat.clog 2 s ≤ i :=
      (Nat.le_pow_iff_clog_le (by norm_num)).mp (by simpa using hle)
    show (2 : Nat) ^ i = 2 ^ max i (Nat.clog 2 s)
    rw [Nat.max_eq_left hclog]
  | succ fuel ih =>
    intro i hi hle
    have hstep : capacity_forLoop (fuel + 1) s (2 ^ i) =
        if s > 2 ^ i ∧ 2 ^ i ≠ 0 then capacity_forLoop fuel s (2 ^ i * 2 % W)
        else 2 ^ i := rfl
    rw [hstep]
    by_cases hgt : s > 2 ^ i
    · rw [if_pos ⟨hgt, (pow_pos (by norm_num) i).ne'⟩]
      have hi63 : i < 63 := by
        by_contra hge
        push_neg at hge
        have : (2 : Nat) ^ 63 ≤ 2 ^ i := Nat.pow_le_pow_right (by norm_num) hge
        omega
      have hlt : (2 : Nat) ^ (i + 1) < W := by
        have h1 : (2 : Nat) ^ (i + 1) ≤ 2 ^ 63 :=
          Nat.pow_le_pow_right (by norm_num) (by omega)
        have h2 : (2 : Nat) ^ 63 < W := by
          unfold W
          norm_num
        omega
      have hmul : 2 ^ i * 2 % W = 2 ^ (i + 1) := by
        rw [← pow_succ]
        exact Nat.mod_eq_of_lt hlt
      rw [hmul, ih (i + 1) (by omega) (by
        have h3 : (2 : Nat) ^ i * 2 ^ (fuel + 1) = 2 ^ (i + 1) * 2 ^ fuel := by ring
        omega)]
      have hclog : i < Nat.clog 2 s := (Nat.pow_lt_iff_lt_clog (by norm_num)).mp hgt
      congr 1
      omega
    · rw [if_neg fun h => hgt h.1]
      have hclog : Nat.clog 2 s ≤ i :=
        (Nat.le_pow_iff_clog_le (by norm_num)).mp (by omega)
      rw [Nat.max_eq_left hclog]

/-- capacity_for with a power-of-two floor 2^i (i ≤ 63) and a target
size ≤ 2^63 returns the smallest power of two ≥ the floor and ≥ the size. -/
theorem capacity_for_pow2 (s i : Nat) (hs : s ≤ 2 ^ 63) (hi : i ≤ 63) :
    capacity_for s (2 ^ i) = 2 ^ max i (Nat.clog 2 s) := by
  show (if capacity_forLoop 64 s (max 1 (2 ^ i)) = 0 then s
        else capacity_forLoop 64 s (max 1 (2 ^ i))) = 2 ^ max i (Nat.clog 2 s)
  rw [Nat.max_eq_right Nat.one_le_two_pow,
    capacity_forLoop_pow2 s hs 64 i hi (by
      have h2 : (2 : Nat) ^ 63 ≤ 2 ^ i * 2 ^ 64 := by
        calc (2 : Nat) ^ 63 ≤ 2 ^ 64 := by norm_num
        _ ≤ 2 ^ i * 2 ^ 64 := Nat.le_mul_of_pos_left _ (pow_pos (by norm_num) i)
      omega),
    if_neg (pow_pos (by norm_num) _).ne']

theorem clog_two_max_pow (j n : Nat) :
    Nat.clog 2 (max (2 ^ j) n) = max j (Nat.clog 2 n) := by
  have hmono : Monotone (Nat.clog 2) := fun a b h => Nat.clog_mono_right 2 h
  rw [hmono.map_max, Nat.clog_pow 2 j (by norm_num)]

/-- flexResize preserves the capacity-law invariant: for a power-of-two floor
2^j and sizes ≤ 2^63, the capacity after resize is the smallest power of two
≥ 2^j and ≥ the new size (expressed via clog), whether the resize grows
(floor = current capacity) or shrinks (floor = initial_capacity). -/
theorem flexResize_inv (j : Nat) (hj : j ≤ 63) (st : Store) (f : FlexBuffer)
    (n : Nat) (mode : ResizeMode) (junk : Nat → Nat)
    (hvalid : f.dataId < st.length)
    (hsize : f.size ≤ 2 ^ 63) (hn : n ≤ 2 ^ 63)
    (hinit : f.initial_capacity = 2 ^ j)
    (hcap : (descOf st f.dataId).capacity = 2 ^ Nat.clog 2 (max (2 ^ j) f.size)) :
    (flexResize st f n mode junk).2.dataId = f.dataId
  ∧ (flexResize st f n mode junk).2.initial_capacity = f.initial_capacity
  ∧ (flexResize st f n mode junk).2.size = n
  ∧ (flexResize st f n mode junk).1.length = st.length
  ∧ (descOf (flexResize st f n mode junk).1 f.dataId).capacity
      = 2 ^ Nat.clog 2 (max (2 ^ j) n) := by
  have hIle : Nat.clog 2 (max (2 ^ j) f.size) ≤ 63 := by
    have h1 : max (2 ^ j) f.size ≤ 2 ^ 63 :=
      max_le (Nat.pow_le_pow_right (by norm_num) hj) hsize
    exact (Nat.le_pow_iff_clog_le (by norm_num)).mp h1
  have hnc : flexNewCapacity st f n = 2 ^ Nat.clog 2 (max (2 ^ j) n) := by
    unfold flexNewCapacity
    rw [hcap]
    by_cases hgt : n > f.size
    · rw [if_pos hgt, capacity_for_pow2 n _ hn hIle, clog_two_max_pow,
        clog_two_max_pow]
      have hmo : Nat.clog 2 f.size ≤ Nat.clog 2 n := Nat.clog_mono_right 2 (by omega)
      congr 1
      omega
    · rw [if_neg hgt, hinit, capacity_for_pow2 n j hn hj, clog_two_max_pow]
  refine ⟨rfl, rfl, rfl, ?_, ?_⟩
  · show (if flexNewCapacity st f n ≠ (descOf st f.dataId).capacity
        then setDesc st f.dataId ((descOf st f.dataId).resize mode (flexNewCapacity st f n) junk)
        else st).length = st.length
    split
    · exact length_setDesc _ _ _
    · rfl
  · show (descOf (if flexNewCapacity st f n ≠ (descOf st f.dataId).capacity
        then setDesc st f.dataId ((descOf st f.dataId).resize mode (flexNewCapacity st f n) junk)
        else st) f.dataId).capacity = _
    by_cases hne : flexNewCapacity st f n = (descOf st f.dataId).capacity
    · rw [if_neg (not_ne_iff.mpr hne), ← hne, hnc]
    · rw [if_pos hne, descOf_setDesc_self _ hvalid]
      show flexNewCapacity st f n = _
      exact hnc

/-- flexAppend (= reserve + memcpy) preserves the capacity-law invariant. -/
theorem flexAppend_inv (j : Nat) (hj : j ≤ 63) (st : Store) (f : FlexBuffer)
    (bs : List Nat) (junk : Nat → Nat)
    (hvalid : f.dataId < st.length)
    (hsize : f.size + bs.length ≤ 2 ^ 63)
    (hinit : f.initial_capacity = 2 ^ j)
    (hcap : (descOf st f.dataId).capacity = 2 ^ Nat.clog 2 (max (2 ^ j) f.size)) :
    (flexAppend st f bs junk).2.dataId = f.dataId
  ∧ (flexAppend st f bs junk).2.initial_capacity = f.initial_capacity
  ∧ (flexAppend st f bs junk).2.size = f.size + bs.length
  ∧ (flexAppend st f bs junk).1.length = st.length
  ∧ (descOf (flexAppend st f bs junk).1 f.dataId).capacity
      = 2 ^ Nat.clog 2 (max (2 ^ j) (f.size + bs.length)) := by
  have hadd : add64 f.size bs.length = f.size + bs.length := by
    unfold add64
    refine Nat.mod_eq_of_lt (lt_of_le_of_lt hsize ?_)
    unfold W
    norm_num
  obtain ⟨h1, h2, h3, h4, h5⟩ := flexResize_inv j hj st f (f.size + bs.length)
    ResizeMode.KeepData junk hvalid (le_trans (Nat.le_add_right _ _) hsize) hsize
    hinit hcap
  have hvalid' : f.dataId <
      (flexResize st f (f.size + bs.length) ResizeMode.KeepData junk).1.length := by
    rw [h4]
    exact hvalid
  simp only [flexAppend, flexReserve, hadd]
  refine ⟨rfl, rfl, rfl, ?_, ?_⟩
  · rw [length_setDesc]
    exact h4
  · rw [descOf_setDesc_self _ hvalid', memcpyBytes_capacity]
    exact h5

/-- The capacity-law invariant is preserved along any small trace of
resizes and appends. -/
theorem applyOps_inv (junk : Nat → Nat) (j : Nat) (hj : j ≤ 63) :
    ∀ (ops : List FlexOp) (p : Store × FlexBuffer),
      p.2.dataId < p.1.length →
      p.2.size ≤ 2 ^ 63 →
      p.2.initial_capacity = 2 ^ j →
      (descOf p.1 p.2.dataId).capacity = 2 ^ Nat.clog 2 (max (2 ^ j) p.2.size) →
      smallTrace junk p ops = true →
      (applyOps junk p ops).2.dataId < (applyOps junk p ops).1.length
      ∧ (applyOps junk p ops).2.size ≤ 2 ^ 63
      ∧ (applyOps junk p ops).2.initial_capacity = 2 ^ j
      ∧ (descOf (applyOps junk p ops).1 (applyOps junk p ops).2.dataId).capacity
          = 2 ^ Nat.clog 2 (max (2 ^ j) (applyOps junk p ops).2.size) := by
  intro ops
  induction ops with
  | nil =>
    intro p h1 h2 h3 h4 _
    exact ⟨h1, h2, h3, h4⟩
  | cons op rest ih =>
    intro p h1 h2 h3 h4 hsm
    cases op with
    | resizeOp n mode =>
      have hsm' : (decide (n ≤ 2 ^ 63)
          && smallTrace junk (applyOp junk p (FlexOp.resizeOp n mode)) rest) = true := hsm
      rw [Bool.and_eq_true] at hsm'
      obtain ⟨hc, hrest⟩ := hsm'
      have hn : n ≤ 2 ^ 63 := of_decide_eq_true hc
      obtain ⟨hq1, hq2, hq3, hq4, hq5⟩ :=
        flexResize_inv j hj p.1 p.2 n mode junk h1 h2 hn h3 h4
      have hop : applyOp junk p (FlexOp.resizeOp n mode)
          = flexResize p.1 p.2 n mode junk := rfl
      exact ih (applyOp junk p (FlexOp.resizeOp n mode))
        (by rw [hop, hq1, hq4]; exact h1)
        (by rw [hop, hq3]; exact hn)
        (by rw [hop, hq2]; exact h3)
        (by rw [hop, hq1, hq3]; exact hq5)
        hrest
    | appendOp bs =>
      have hsm' : (decide (p.2.size + bs.length ≤ 2 ^ 63)
          && smallTrace junk (applyOp junk p (FlexOp.appendOp bs)) rest) = true := hsm
      rw [Bool.and_eq_true] at hsm'
      obtain ⟨hc, hrest⟩ := hsm'
      have hn : p.2.size + bs.length ≤ 2 ^ 63 := of_decide_eq_true hc
      obtain ⟨hq1, hq2, hq3, hq4, hq5⟩ :=
        flexAppend_inv j hj p.1 p.2 bs junk h1 hn h3 h4
      have hop : applyOp junk p (FlexOp.appendOp bs)
          = flexAppend p.1 p.2 bs junk := rfl
      exact ih (applyOp junk p (FlexOp.appendOp bs))
        (by rw [hop, hq1, hq4]; exact h1)
        (by rw [hop, hq3]; exact hn)
        (by rw [hop, hq2]; exact h3)
        (by rw [hop, hq1, hq3]; exact hq5)
        hrest

theorem descOf_append_last (st : Store) (d : BufferData) :
    descOf (st ++ [d]) st.length = d := by
  induction st with
  | nil => rfl
  | cons a t ih => exact ih

/-- 2 ^ clog 2 (max (2^j) n) is the least element of the set of powers of two
that are ≥ 2^j and ≥ n. -/
theorem isLeast_two_pow_clog (j n : Nat) :
    IsLeast {c | (∃ k, c = 2 ^ k) ∧ 2 ^ j ≤ c ∧ n ≤ c}
      (2 ^ Nat.clog 2 (max (2 ^ j) n)) := by
  constructor
  · refine ⟨⟨_, rfl⟩, ?_, ?_⟩
    · apply Nat.pow_le_pow_right (by norm_num)
      rw [clog_two_max_pow]
      exact le_max_left _ _
    · exact le_trans (le_max_right (2 ^ j) n) (Nat.le_pow_clog (by norm_num) _)
  · rintro c ⟨⟨k, rfl⟩, hc1, hc2⟩
    apply Nat.pow_le_pow_right (by norm_num)
    exact (Nat.le_pow_iff_clog_le (by norm_num)).mp (max_le hc1 hc2)

/-- C3 (amended): for a FlexBuffer constructed with a power-of-two initial
capacity floor C0 = 2^j (j ≤ 63), after any sequence of appends and resizes
in which every logical size stays ≤ 2^63 (so the doubling never overflows
the address space), the physical capacity is exactly the smallest power of
two that is ≥ C0 and ≥ the current logical size. -/
theorem C3_capacity_law_pow2 (st0 : Store) (j : Nat) (hj : j ≤ 63)
    (junk : Nat → Nat) (ops : List FlexOp)
    (hsmall : smallTrace junk (flexNew st0 (2 ^ j) junk) ops = true) :
    IsLeast {c | (∃ k, c = 2 ^ k) ∧ 2 ^ j ≤ c ∧
        (applyOps junk (flexNew st0 (2 ^ j) junk) ops).2.size ≤ c}
      (descOf (applyOps junk (flexNew st0 (2 ^ j) junk) ops).1
        (applyOps junk (flexNew st0 (2 ^ j) junk) ops).2.dataId).capacity := by
  have hbase4 : (descOf (flexNew st0 (2 ^ j) junk).1
      (flexNew st0 (2 ^ j) junk).2.dataId).capacity
      = 2 ^ Nat.clog 2 (max (2 ^ j) (flexNew st0 (2 ^ j) junk).2.size) := by
    show (descOf (st0 ++ [(⟨junk, 2 ^ j⟩ : BufferData)]) st0.length).capacity
        = 2 ^ Nat.clog 2 (max (2 ^ j) 0)
    rw [descOf_append_last, Nat.max_eq_left (Nat.zero_le _),
      Nat.clog_pow 2 j (by norm_num)]
  have hinv := applyOps_inv junk j hj ops (flexNew st0 (2 ^ j) junk)
    (by show st0.length < (st0 ++ [(⟨junk, 2 ^ j⟩ : BufferData)]).length
        simp)
    (Nat.zero_le _) rfl hbase4 hsmall
  rw [hinv.2.2.2]
  exact isLeast_two_pow_clog j _

/-- C3 witness: Growable(8) (= 2^3), append "hello world!" (12 bytes): the
trace is small, the final capacity is 16, and 16 is the least power of two
that is ≥ 8 and ≥ 12. -/
theorem C3_capacity_law_pow2_witness :
    (smallTrace (fun _ => 0) (flexNew [] (2 ^ 3) (fun _ => 0))
      [FlexOp.appendOp (List.replicate 12 104)] = true)
  ∧ (descOf (applyOps (fun _ => 0) (flexNew [] (2 ^ 3) (fun _ => 0))
        [FlexOp.appendOp (List.replicate 12 104)]).1
      (applyOps (fun _ => 0) (flexNew [] (2 ^ 3) (fun _ => 0))
        [FlexOp.appendOp (List.replicate 12 104)]).2.dataId).capacity = 16
  ∧ IsLeast {c | (∃ k, c = 2 ^ k) ∧ 2 ^ 3 ≤ c ∧
        (applyOps (fun _ => 0) (flexNew [] (2 ^ 3) (fun _ => 0))
          [FlexOp.appendOp (List.replicate 12 104)]).2.size ≤ c}
      (descOf (applyOps (fun _ => 0) (flexNew [] (2 ^ 3) (fun _ => 0))
          [FlexOp.appendOp (List.replicate 12 104)]).1
        (applyOps (fun _ => 0) (flexNew [] (2 ^ 3) (fun _ => 0))
          [FlexOp.appendOp (List.replicate 12 104)]).2.dataId).capacity :=
  ⟨by decide, by decide,
   C3_capacity_law_pow2 [] 3 (by decide) (fun _ => 0)
     [FlexOp.appendOp (List.replicate 12 104)] (by decide)⟩

/-- C3 counterexample: the claim as stated fails for a non-power-of-two
initial capacity.  With C0 = 5, after resize(1) (a plain append-style grow,
no overflow anywhere) the physical capacity is still 5, whereas the smallest
power of two ≥ 5 and ≥ the current size 1 is 8. -/
theorem C3_non_pow2_counterexample :
    (descOf (applyOps (fun _ => 0) (flexNew [] 5 (fun _ => 0))
        [FlexOp.resizeOp 1 ResizeMode.KeepData]).1
      (applyOps (fun _ => 0) (flexNew [] 5 (fun _ => 0))
        [FlexOp.resizeOp 1 ResizeMode.KeepData]).2.dataId).capacity = 5
  ∧ IsLeast {c | (∃ k, c = 2 ^ k) ∧ 5 ≤ c ∧
        (applyOps (fun _ => 0) (flexNew [] 5 (fun _ => 0))
          [FlexOp.resizeOp 1 ResizeMode.KeepData]).2.size ≤ c} 8
  ∧ (5 : Nat) ≠ 8 := by
  refine ⟨by decide, ⟨⟨⟨3, by norm_num⟩, by norm_num, by decide⟩, ?_⟩, by decide⟩
  rintro c ⟨⟨k, rfl⟩, hc1, _⟩
  have hk : 3 ≤ k := by
    by_contra hlt
    push_neg at hlt
    interval_cases k <;> norm_num at hc1
  have h8 : (2 : Nat) ^ 3 ≤ 2 ^ k := Nat.pow_le_pow_right (by norm_num) hk
  norm_num at h8
  exact h8

end Flexbuf
